import Mathlib

set_option maxRecDepth 100000

/-!
Shallow embedding of the SolPay x402 SDK receipt-verification core.

The embedded code is the manual-verification reference implementation shipped
with the repository (docs on receipt verification, functions `verifyReceipt`
and `canonicalJSON`), the SDK client's TypeScript source (configuration,
constructor, `createPaymentIntent` and `verifyReceipt`, concatenated into the
demo document of the repository), and the payment-intent request body built
by the debug test script. JavaScript values are modelled as follows:

* A parsed JSON document is a `JsonValue`. JavaScript objects are association
  lists of members in insertion order; an object produced by `JSON.parse` or an
  object literal never repeats a key.
* JavaScript numbers are IEEE-754 doubles. Every number occurring in the
  receipts of this development is an integral double; those are modelled by
  `Int`. ECMAScript stringifies an integral double as its plain decimal digit
  string, without a decimal point or exponent: the literal `10.0` denotes the
  same double as `10` and prints as `"10"`.
* `JSON.stringify` on a string escapes the double quote, the backslash and the
  control characters, and never escapes the forward slash; on `true`, `false`
  and numbers it prints the usual literals.
* `Object.keys(o).sort()` sorts the key strings with the default comparator,
  which compares the UTF-16 code-unit sequences of the strings; this is
  modelled exactly, including the surrogate-pair encoding of
  supplementary-plane characters.
-/

/-- A JSON-compatible JavaScript value. Numbers are restricted to the
integral doubles, the only numbers the embedded documents contain; the
integer carrier is wider than the safe-double range, but every concrete
document in this development keeps its numbers small, and no counting
argument draws on the width of `num` — the collision family of the
tamper-sensitivity analysis varies a string field only. -/
inductive JsonValue where
  | null : JsonValue
  | bool (b : Bool) : JsonValue
  | num (n : Int) : JsonValue
  | str (s : String) : JsonValue
  | arr (elems : List JsonValue) : JsonValue
  | obj (members : List (String × JsonValue)) : JsonValue
  deriving Repr

/-- Lowercase hexadecimal digit for a nibble. -/
def hexDigit (n : Nat) : Char :=
  if n < 10 then Char.ofNat (48 + n) else Char.ofNat (87 + n)

/-- ECMAScript `QuoteJSONString` escaping of one character: quote, backslash
and the named control characters get two-character escapes, the remaining
control characters a `\u00xx` escape, everything else (the forward slash
included) is passed through. -/
def escapeChar (c : Char) : String :=
  if c = '"' then "\\\""
  else if c = '\\' then "\\\\"
  else if c = Char.ofNat 8 then "\\b"
  else if c = Char.ofNat 9 then "\\t"
  else if c = Char.ofNat 10 then "\\n"
  else if c = Char.ofNat 12 then "\\f"
  else if c = Char.ofNat 13 then "\\r"
  else if c.toNat < 32 then
    "\\u00" ++ String.mk [hexDigit (c.toNat / 16), hexDigit (c.toNat % 16)]
  else String.singleton c

/-- `JSON.stringify` on a string value. -/
def escapeString (s : String) : String :=
  "\"" ++ String.join (s.data.map escapeChar) ++ "\""

/-- `JSON.stringify` on an integral double: the plain decimal digit string. -/
def jsNumToString (n : Int) : String := n.repr

/-- The UTF-16 code units of one scalar value: a single unit in the basic
plane, a surrogate pair above it. A JavaScript string is a sequence of UTF-16
code units. -/
def utf16Units (c : Char) : List Nat :=
  if c.toNat < 65536 then [c.toNat]
  else [55296 + (c.toNat - 65536) / 1024, 56320 + (c.toNat - 65536) % 1024]

/-- The UTF-16 code-unit sequence of a character list. -/
def utf16Data (l : List Char) : List Nat := (l.map utf16Units).flatten

/-- Lexicographic comparison of code-unit sequences. -/
def unitsLt : List Nat → List Nat → Bool
  | [], [] => false
  | [], _ :: _ => true
  | _ :: _, [] => false
  | a :: as, b :: bs =>
      if a < b then true
      else if b < a then false
      else unitsLt as bs

/-- JavaScript's default sort comparator on strings, per ECMA-262: the
less-than comparison of the UTF-16 code-unit sequences. This is NOT
code-point order: a supplementary-plane character starts with a high
surrogate (a unit in 55296..56319) and therefore sorts below every
basic-plane character at or above 56320. -/
def jsStringLt (s t : String) : Bool := unitsLt (utf16Data s.data) (utf16Data t.data)

/-- The reflexive closure of `jsStringLt`, i.e. JavaScript `s <= t`. -/
def jsStringLe (s t : String) : Bool := !(jsStringLt t s)

theorem unitsLt_irrefl : ∀ l : List Nat, unitsLt l l = false := by
  intro l
  induction l with
  | nil => rfl
  | cons a as ih => simp [unitsLt, ih]

theorem unitsLt_trans : ∀ a b c : List Nat,
    unitsLt a b = true → unitsLt b c = true → unitsLt a c = true := by
  intro a
  induction a with
  | nil =>
      intro b c hab hbc
      cases b with
      | nil => exact absurd hab (by simp [unitsLt])
      | cons y ys =>
          cases c with
          | nil => exact absurd hbc (by simp [unitsLt])
          | cons z zs => rfl
  | cons x xs ih =>
      intro b c hab hbc
      cases b with
      | nil => exact absurd hab (by simp [unitsLt])
      | cons y ys =>
          cases c with
          | nil => exact absurd hbc (by simp [unitsLt])
          | cons z zs =>
              simp only [unitsLt] at hab hbc ⊢
              split_ifs at hab hbc ⊢ with h1 h2 h3 h4 h5 h6 <;>
                first
                  | rfl
                  | omega
                  | (exact ih ys zs hab hbc)
                  | (exact absurd hab (by simp))
                  | (exact absurd hbc (by simp))

theorem char_eq_of_toNat_eq {a b : Char} (h : a.toNat = b.toNat) : a = b :=
  Char.eq_of_val_eq (UInt32.ext h)

theorem unitsLt_conn : ∀ a b : List Nat,
    unitsLt a b = false → unitsLt b a = false → a = b := by
  intro a
  induction a with
  | nil =>
      intro b hab _
      cases b with
      | nil => rfl
      | cons y ys => exact absurd hab (by simp [unitsLt])
  | cons x xs ih =>
      intro b hab hba
      cases b with
      | nil => exact absurd hba (by simp [unitsLt])
      | cons y ys =>
          simp only [unitsLt] at hab hba
          by_cases h1 : x < y
          · simp [h1] at hab
          · by_cases h2 : y < x
            · simp [h2] at hba
            · simp only [h1, h2, if_false] at hab hba
              exact congrArg₂ (· :: ·) (by omega) (ih ys hab hba)

/-- A scalar value is below the surrogate range or above it. -/
theorem char_toNat_valid (c : Char) :
    c.toNat < 55296 ∨ (57343 < c.toNat ∧ c.toNat < 1114112) := c.valid

theorem utf16Data_cons (c : Char) (cs : List Char) :
    utf16Data (c :: cs) = utf16Units c ++ utf16Data cs := by
  simp [utf16Data]

theorem utf16Units_ne_nil (c : Char) : utf16Units c ≠ [] := by
  unfold utf16Units
  split_ifs <;> simp

/-- UTF-16 encoding of a character list is injective: a high surrogate can
only start the unit pair of a supplementary-plane character, so the unit
stream is self-delimiting. -/
theorem utf16Data_inj : ∀ l1 l2 : List Char, utf16Data l1 = utf16Data l2 → l1 = l2 := by
  intro l1
  induction l1 with
  | nil =>
      intro l2 h
      cases l2 with
      | nil => rfl
      | cons d ds =>
          rw [show utf16Data [] = ([] : List Nat) from rfl, utf16Data_cons] at h
          cases hu : utf16Units d with
          | nil => exact absurd hu (utf16Units_ne_nil d)
          | cons u us => rw [hu] at h; exact absurd h (by simp)
  | cons c cs ih =>
      intro l2 h
      cases l2 with
      | nil =>
          rw [show utf16Data [] = ([] : List Nat) from rfl, utf16Data_cons] at h
          cases hu : utf16Units c with
          | nil => exact absurd hu (utf16Units_ne_nil c)
          | cons u us => rw [hu] at h; exact absurd h (by simp)
      | cons d ds =>
          rw [utf16Data_cons, utf16Data_cons] at h
          have hc := char_toNat_valid c
          have hd := char_toNat_valid d
          by_cases h1 : c.toNat < 65536 <;> by_cases h2 : d.toNat < 65536
          · simp only [utf16Units, if_pos h1, if_pos h2, List.singleton_append,
              List.cons.injEq] at h
            exact congrArg₂ (· :: ·) (char_eq_of_toNat_eq h.1) (ih ds h.2)
          · simp only [utf16Units, if_pos h1, if_neg h2, List.singleton_append,
              List.cons_append, List.cons.injEq] at h
            exact absurd h.1 (by omega)
          · simp only [utf16Units, if_neg h1, if_pos h2, List.singleton_append,
              List.cons_append, List.cons.injEq] at h
            exact absurd h.1 (by omega)
          · simp only [utf16Units, if_neg h1, if_neg h2, List.cons_append,
              List.cons.injEq] at h
            obtain ⟨hu1, hu2, ht⟩ := h
            exact congrArg₂ (· :: ·) (char_eq_of_toNat_eq (by omega)) (ih ds ht)

theorem string_eq_of_data_eq {s t : String} (h : s.data = t.data) : s = t := by
  cases s
  cases t
  exact congrArg String.mk h

theorem jsStringLt_irrefl (s : String) : jsStringLt s s = false :=
  unitsLt_irrefl _

theorem jsStringLt_trans {s t u : String} (h1 : jsStringLt s t = true)
    (h2 : jsStringLt t u = true) : jsStringLt s u = true :=
  unitsLt_trans _ _ _ h1 h2

theorem jsStringLt_conn {s t : String} (h1 : jsStringLt s t = false)
    (h2 : jsStringLt t s = false) : s = t :=
  string_eq_of_data_eq (utf16Data_inj s.data t.data (unitsLt_conn _ _ h1 h2))

/-- The comparator is genuinely code-unit order: U+1F600 (a surrogate pair
starting with unit 55357) sorts below U+FF61 (a single unit 65377), although
its code point 128512 is the larger. -/
theorem jsStringLt_surrogate_example :
    jsStringLt (String.mk [Char.ofNat 128512]) (String.mk [Char.ofNat 65377]) = true ∧
    (Char.ofNat 128512).toNat > (Char.ofNat 65377).toNat := by
  decide

theorem jsStringLt_asymm {s t : String} (h : jsStringLt s t = true) :
    jsStringLt t s = false := by
  cases hts : jsStringLt t s with
  | false => rfl
  | true => exact absurd (jsStringLt_trans h hts) (by rw [jsStringLt_irrefl]; simp)

theorem jsStringLe_trans {s t u : String} (h1 : jsStringLe s t = true)
    (h2 : jsStringLe t u = true) : jsStringLe s u = true := by
  simp only [jsStringLe, Bool.not_eq_eq_eq_not, Bool.not_true] at h1 h2 ⊢
  cases hus : jsStringLt u s with
  | false => rfl
  | true =>
      cases htu : jsStringLt t u with
      | true => exact absurd (jsStringLt_trans htu hus) (by rw [h1]; simp)
      | false =>
          have he : t = u := jsStringLt_conn htu h2
          rw [← he] at hus
          exact absurd hus (by rw [h1]; simp)

theorem jsStringLe_antisymm {s t : String} (h1 : jsStringLe s t = true)
    (h2 : jsStringLe t s = true) : s = t := by
  simp only [jsStringLe, Bool.not_eq_eq_eq_not, Bool.not_true] at h1 h2
  exact jsStringLt_conn h2 h1

theorem jsStringLe_total (s t : String) :
    jsStringLe s t = true ∨ jsStringLe t s = true := by
  simp only [jsStringLe, Bool.not_eq_eq_eq_not, Bool.not_true]
  cases h : jsStringLt t s with
  | false => exact Or.inl rfl
  | true => exact Or.inr (jsStringLt_asymm h)

/-- The order in which `canonicalJSON` emits the members of an object, on
members whose values are already rendered: ascending by key. JavaScript sorts
the unique key list, so ties between equal keys cannot arise there; the value
component is used as a tiebreaker only to keep the relation antisymmetric on
the association lists of the model that no JavaScript object corresponds to. -/
def memberLe (p q : String × String) : Prop :=
  jsStringLt p.1 q.1 = true ∨ (p.1 = q.1 ∧ jsStringLe p.2 q.2 = true)

instance : DecidableRel memberLe := fun p q =>
  inferInstanceAs (Decidable (_ ∨ (_ ∧ _)))

instance : IsTotal (String × String) memberLe where
  total p q := by
    cases h1 : jsStringLt p.1 q.1 with
    | true => exact Or.inl (Or.inl h1)
    | false =>
        cases h2 : jsStringLt q.1 p.1 with
        | true => exact Or.inr (Or.inl h2)
        | false =>
            have he := jsStringLt_conn h1 h2
            cases h3 : jsStringLt q.2 p.2 with
            | false => exact Or.inl (Or.inr ⟨he, by simp [jsStringLe, h3]⟩)
            | true =>
                refine Or.inr (Or.inr ⟨he.symm, ?_⟩)
                simp [jsStringLe, jsStringLt_asymm h3]

instance : IsTrans (String × String) memberLe where
  trans p q r hpq hqr := by
    rcases hpq with h | ⟨he, h2⟩
    · rcases hqr with h' | ⟨he', _⟩
      · exact Or.inl (jsStringLt_trans h h')
      · exact Or.inl (he' ▸ h)
    · rcases hqr with h' | ⟨he', h2'⟩
      · exact Or.inl (he ▸ h')
      · exact Or.inr ⟨he.trans he', jsStringLe_trans h2 h2'⟩

instance : IsAntisymm (String × String) memberLe where
  antisymm p q hpq hqp := by
    rcases hpq with h | ⟨he, h2⟩
    · rcases hqp with h' | ⟨he', _⟩
      · exact absurd h' (by rw [jsStringLt_asymm h]; simp)
      · exact absurd h (by rw [he', jsStringLt_irrefl]; simp)
    · rcases hqp with h' | ⟨_, h2'⟩
      · exact absurd h' (by rw [he, jsStringLt_irrefl]; simp)
      · exact Prod.ext he (jsStringLe_antisymm h2 h2')

/-- Rendering of one object member from its key and already-rendered value:
the key is interpolated between plain double quotes, not escaped, exactly as
the template literal of the source does. -/
def renderMember (q : String × String) : String :=
  "\"" ++ q.1 ++ "\":" ++ q.2

theorem JsonValue.sizeOf_pos (v : JsonValue) : 0 < sizeOf v := by
  cases v <;> simp <;> omega

theorem sizeOf_lt_of_mem_elems {e : JsonValue} {elems : List JsonValue}
    (h : e ∈ elems) : sizeOf e < sizeOf elems :=
  List.sizeOf_lt_of_mem h

theorem sizeOf_lt_of_mem_members {p : String × JsonValue}
    {members : List (String × JsonValue)} (h : p ∈ members) :
    sizeOf p.2 < sizeOf members := by
  have h1 := List.sizeOf_lt_of_mem h
  obtain ⟨k, v⟩ := p
  simp [Prod.mk.sizeOf_spec] at h1 ⊢
  omega

/-- The `canonicalJSON` function of the receipt-verification reference code:
`null`, scalars via `JSON.stringify`, arrays element-wise in order, objects
with keys sorted ascending and each member emitted as `"<key>":<value>` from a
template literal. Sorting the member pairs by key before rendering is the same
as the source's sorting of `Object.keys(obj)` followed by indexing back into
the object, because a JavaScript object cannot repeat a key; the
keys-then-index reading is proved equal below for key-unique objects. -/
def canonicalJSON : JsonValue → String
  | .null => "null"
  | .bool b => if b then "true" else "false"
  | .num n => jsNumToString n
  | .str s => escapeString s
  | .arr elems =>
      "[" ++ String.intercalate "," (elems.attach.map fun e => canonicalJSON e.val) ++ "]"
  | .obj members =>
      "\x7b" ++
        String.intercalate ","
          (((members.attach.map fun p => (p.val.1, canonicalJSON p.val.2)).insertionSort
              memberLe).map renderMember) ++ "\x7d"
termination_by v => sizeOf v
decreasing_by
  · have h := sizeOf_lt_of_mem_elems e.property
    simp only [JsonValue.arr.sizeOf_spec]
    omega
  · have h := sizeOf_lt_of_mem_members p.property
    simp only [JsonValue.obj.sizeOf_spec]
    omega

theorem canonicalJSON_null : canonicalJSON .null = "null" := by
  simp [canonicalJSON]

theorem canonicalJSON_bool (b : Bool) :
    canonicalJSON (.bool b) = if b then "true" else "false" := by
  simp [canonicalJSON]

theorem canonicalJSON_num (n : Int) : canonicalJSON (.num n) = jsNumToString n := by
  simp [canonicalJSON]

theorem canonicalJSON_str (s : String) : canonicalJSON (.str s) = escapeString s := by
  simp [canonicalJSON]

/-- Source line `return '[' + obj.map(canonicalJSON).join(',') + ']'`. -/
theorem canonicalJSON_arr (elems : List JsonValue) :
    canonicalJSON (.arr elems) =
      "[" ++ String.intercalate "," (elems.map canonicalJSON) ++ "]" := by
  rw [canonicalJSON]
  rw [List.attach_map_val elems canonicalJSON]

/-- Source lines: sort the keys, render each member from the raw template
literal, join with commas, wrap in braces. -/
theorem canonicalJSON_obj (members : List (String × JsonValue)) :
    canonicalJSON (.obj members) =
      "\x7b" ++
        String.intercalate ","
          (((members.map fun p => (p.1, canonicalJSON p.2)).insertionSort memberLe).map
            renderMember) ++ "\x7d" := by
  rw [canonicalJSON]
  rw [List.attach_map_val members fun p => (p.1, canonicalJSON p.2)]

/-- Fuel-indexed copy of the serializer, structural in the fuel so that the
kernel can evaluate it on concrete documents; `canonFuel_sufficient` below
identifies it with `canonicalJSON` whenever the fuel covers the value's size,
and the out-of-fuel branch is then unreachable. -/
def canonFuel : Nat → JsonValue → String
  | 0, _ => ""
  | _ + 1, .null => "null"
  | _ + 1, .bool b => if b then "true" else "false"
  | _ + 1, .num n => jsNumToString n
  | _ + 1, .str s => escapeString s
  | f + 1, .arr elems =>
      "[" ++ String.intercalate "," (elems.map (canonFuel f)) ++ "]"
  | f + 1, .obj members =>
      "\x7b" ++
        String.intercalate ","
          (((members.map fun p => (p.1, canonFuel f p.2)).insertionSort memberLe).map
            renderMember) ++ "\x7d"

/-- Enough fuel makes the fuel-indexed serializer agree with `canonicalJSON`. -/
theorem canonFuel_sufficient : ∀ (f : Nat) (v : JsonValue),
    sizeOf v ≤ f → canonFuel f v = canonicalJSON v := by
  intro f
  induction f with
  | zero =>
      intro v hf
      exact absurd (Nat.lt_of_lt_of_le v.sizeOf_pos hf) (Nat.lt_irrefl 0)
  | succ f ih =>
      intro v hf
      cases v with
      | null => rw [canonicalJSON_null]; rfl
      | bool b => rw [canonicalJSON_bool]; rfl
      | num n => rw [canonicalJSON_num]; rfl
      | str s => rw [canonicalJSON_str]; rfl
      | arr elems =>
          rw [canonicalJSON_arr]
          have hmap : elems.map (canonFuel f) = elems.map canonicalJSON :=
            List.map_congr_left fun e he => by
              have h1 := sizeOf_lt_of_mem_elems he
              have h2 : sizeOf e ≤ f := by simp at hf; omega
              exact ih e h2
          simp only [canonFuel, hmap]
      | obj members =>
          rw [canonicalJSON_obj]
          have hmap : (members.map fun p => (p.1, canonFuel f p.2)) =
              members.map fun p => (p.1, canonicalJSON p.2) :=
            List.map_congr_left fun p hp => by
              have h1 := sizeOf_lt_of_mem_members hp
              have h2 : sizeOf p.2 ≤ f := by simp at hf; omega
              exact congrArg _ (ih p.2 h2)
          simp only [canonFuel, hmap]

theorem canonicalJSON_twoMember_example :
    canonicalJSON (.obj [("b", .num 2), ("a", .num 1)]) = "\x7b\"a\":1,\"b\":2\x7d" := by
  rw [← canonFuel_sufficient 1000000 _ (by decide)]
  decide

/-!
SHA-256 (FIPS 180-4) over byte lists, with 32-bit words carried as `Nat`
masked to 32 bits. This models the `crypto.createHash('sha256')` call of the
verification code; `.update` hashes the UTF-8 encoding of the canonical
string and `.digest('hex')` renders the result as lowercase hexadecimal.
-/

/-- UTF-8 encoding of one scalar value, as byte values. -/
def utf8EncodeOneChar (c : Char) : List Nat :=
  let n := c.toNat
  if n < 128 then [n]
  else if n < 2048 then [192 + n / 64, 128 + n % 64]
  else if n < 65536 then [224 + n / 4096, 128 + (n / 64) % 64, 128 + n % 64]
  else [240 + n / 262144, 128 + (n / 4096) % 64, 128 + (n / 64) % 64, 128 + n % 64]

/-- UTF-8 encoding of a string, as byte values. -/
def utf8Bytes (s : String) : List Nat :=
  (s.data.map utf8EncodeOneChar).join

/-- Truncation to a 32-bit word. -/
def m32 (n : Nat) : Nat := n % 4294967296

/-- Right rotation of a 32-bit word. -/
def rotr (k n : Nat) : Nat := m32 ((n >>> k) ||| (n <<< (32 - k)))

def shaCh (x y z : Nat) : Nat := (x &&& y) ^^^ ((x ^^^ 4294967295) &&& z)

def shaMaj (x y z : Nat) : Nat := (x &&& y) ^^^ (x &&& z) ^^^ (y &&& z)

def bsig0 (x : Nat) : Nat := rotr 2 x ^^^ rotr 13 x ^^^ rotr 22 x

def bsig1 (x : Nat) : Nat := rotr 6 x ^^^ rotr 11 x ^^^ rotr 25 x

def ssig0 (x : Nat) : Nat := rotr 7 x ^^^ rotr 18 x ^^^ (x >>> 3)

def ssig1 (x : Nat) : Nat := rotr 17 x ^^^ rotr 19 x ^^^ (x >>> 10)

/-- The round constants. -/
def shaK : List Nat :=
  [1116352408, 1899447441, 3049323471, 3921009573,
   961987163, 1508970993, 2453635748, 2870763221,
   3624381080, 310598401, 607225278, 1426881987,
   1925078388, 2162078206, 2614888103, 3248222580,
   3835390401, 4022224774, 264347078, 604807628,
   770255983, 1249150122, 1555081692, 1996064986,
   2554220882, 2821834349, 2952996808, 3210313671,
   3336571891, 3584528711, 113926993, 338241895,
   666307205, 773529912, 1294757372, 1396182291,
   1695183700, 1986661051, 2177026350, 2456956037,
   2730485921, 2820302411, 3259730800, 3345764771,
   3516065817, 3600352804, 4094571909, 275423344,
   430227734, 506948616, 659060556, 883997877,
   958139571, 1322822218, 1537002063, 1747873779,
   1955562222, 2024104815, 2227730452, 2361852424,
   2428436474, 2756734187, 3204031479, 3329325298]


/-- Working state: eight 32-bit words. -/
structure Hash8 where
  a : Nat
  b : Nat
  c : Nat
  d : Nat
  e : Nat
  f : Nat
  g : Nat
  h : Nat
  deriving Repr, DecidableEq

/-- The initial hash value. -/
def shaInit : Hash8 :=
  ⟨1779033703, 3144134277, 1013904242, 2773480762,
   1359893119, 2600822924, 528734635, 1541459225⟩

/-- Big-endian bytes of the 64-bit message length. -/
def lenBytes (n : Nat) : List Nat :=
  [(n >>> 56) &&& 255, (n >>> 48) &&& 255, (n >>> 40) &&& 255, (n >>> 32) &&& 255,
   (n >>> 24) &&& 255, (n >>> 16) &&& 255, (n >>> 8) &&& 255, n &&& 255]

/-- Merkle-Damgard padding: a `0x80` byte, zeros to 56 mod 64, then the
message bit length in 8 big-endian bytes. -/
def padBytes (msg : List Nat) : List Nat :=
  let zeros := (64 - ((msg.length + 9) % 64)) % 64
  msg ++ [128] ++ List.replicate zeros 0 ++ lenBytes (8 * msg.length)

/-- Big-endian packing of bytes into 32-bit words. -/
def toWords : List Nat → List Nat
  | b0 :: b1 :: b2 :: b3 :: rest =>
      (b0 * 16777216 + b1 * 65536 + b2 * 256 + b3) :: toWords rest
  | _ => []

/-- Splitting the word list into 16-word blocks. Padding always produces a
multiple of sixteen words, so the catch-all branch only ends the recursion. -/
def toBlocks : List Nat → List (List Nat)
  | w0 :: w1 :: w2 :: w3 :: w4 :: w5 :: w6 :: w7 ::
      w8 :: w9 :: w10 :: w11 :: w12 :: w13 :: w14 :: w15 :: rest =>
      [w0, w1, w2, w3, w4, w5, w6, w7, w8, w9, w10, w11, w12, w13, w14, w15] ::
        toBlocks rest
  | _ => []

/-- The 64-entry message schedule of one block. -/
def schedule (block : List Nat) : List Nat :=
  (List.range 48).foldl
    (fun w _ =>
      let t := w.length
      w ++ [m32 (ssig1 (w.getD (t - 2) 0) + w.getD (t - 7) 0 +
                 ssig0 (w.getD (t - 15) 0) + w.getD (t - 16) 0)])
    block

/-- One compression round. -/
def shaRound (st : Hash8) (kw : Nat × Nat) : Hash8 :=
  let t1 := m32 (st.h + bsig1 st.e + shaCh st.e st.f st.g + kw.1 + kw.2)
  let t2 := m32 (bsig0 st.a + shaMaj st.a st.b st.c)
  ⟨m32 (t1 + t2), st.a, st.b, st.c, m32 (st.d + t1), st.e, st.f, st.g⟩

/-- Compression of one 16-word block into the chaining state. -/
def compressBlock (st : Hash8) (block : List Nat) : Hash8 :=
  let w := schedule block
  let r := (shaK.zip w).foldl shaRound st
  ⟨m32 (st.a + r.a), m32 (st.b + r.b), m32 (st.c + r.c), m32 (st.d + r.d),
   m32 (st.e + r.e), m32 (st.f + r.f), m32 (st.g + r.g), m32 (st.h + r.h)⟩

/-- SHA-256 of a byte list, as the final eight-word state. -/
def sha256words (msg : List Nat) : Hash8 :=
  (toBlocks (toWords (padBytes msg))).foldl compressBlock shaInit

/-- Lowercase-hex rendering of one 32-bit word, eight digits. -/
def w32hex (n : Nat) : String :=
  String.mk
    [hexDigit ((n >>> 28) &&& 15), hexDigit ((n >>> 24) &&& 15),
     hexDigit ((n >>> 20) &&& 15), hexDigit ((n >>> 16) &&& 15),
     hexDigit ((n >>> 12) &&& 15), hexDigit ((n >>> 8) &&& 15),
     hexDigit ((n >>> 4) &&& 15), hexDigit (n &&& 15)]

/-- Lowercase-hex rendering of the final state, 64 digits. -/
def hash8hex (st : Hash8) : String :=
  w32hex st.a ++ w32hex st.b ++ w32hex st.c ++ w32hex st.d ++
    w32hex st.e ++ w32hex st.f ++ w32hex st.g ++ w32hex st.h

/-- `crypto.createHash('sha256').update(s).digest('hex')`: lowercase
hexadecimal SHA-256 digest of the UTF-8 encoding of `s`. -/
def sha256hex (s : String) : String := hash8hex (sha256words (utf8Bytes s))

theorem sha256hex_abc_vector :
    sha256hex "abc" =
      "ba7816bf8f01cfea414140de5dae2223b00361a396177a9cb410ff61f20015ad" := by
  decide

/-!
The `verifyReceipt` reference function. Its input is a parsed receipt
object, i.e. an association list of members; `delete` removes a member from
an object, and the spread copy `\x7b ...receipt \x7d` is identity on the pure
object value (the heap-level reading, with the copy allocated as a fresh
object, is `verifyRun` further below).
-/

/-- `delete o.k`: the object without its `k` member. -/
def eraseField (members : List (String × JsonValue)) (k : String) :
    List (String × JsonValue) :=
  members.filter fun p => p.1 != k

/-- Digest-field removal performed by `verifyReceipt`: first
`delete canonical.sha256_hash`, then `delete canonical.hash`. -/
def stripDigestFields (members : List (String × JsonValue)) :
    List (String × JsonValue) :=
  eraseField (eraseField members "sha256_hash") "hash"

/-- The canonical string that `verifyReceipt` hashes. -/
def canonicalInput (members : List (String × JsonValue)) : String :=
  canonicalJSON (.obj (stripDigestFields members))

/-- The `computedHash` of `verifyReceipt`: SHA-256 hex digest of the
canonical JSON of the receipt with both digest aliases removed. -/
def computedHash (members : List (String × JsonValue)) : String :=
  sha256hex (canonicalInput members)

/-- The `verifyReceipt` reference function: read `receipt.sha256_hash`,
remove both digest aliases from a copy, canonicalize, hash, and compare with
strict equality (against a missing or non-string reported value, strict
equality with the computed hex string is false). -/
def verifyReceipt (receipt : List (String × JsonValue)) : Bool :=
  match receipt.lookup "sha256_hash" with
  | some (.str reported) => computedHash receipt == reported
  | _ => false

/-- Evaluation bridge: on documents of size at most a million, `canonicalJSON`
is the fuel-indexed serializer, which the kernel can run. -/
theorem canonicalJSON_big (v : JsonValue) (h : sizeOf v ≤ 1000000) :
    canonicalJSON v = canonFuel 1000000 v :=
  (canonFuel_sufficient 1000000 v h).symm

theorem lookup_append_of_not_mem {l : List (String × JsonValue)} {k : String}
    {v : JsonValue} (h : k ∉ l.map Prod.fst) :
    (l ++ [(k, v)]).lookup k = some v := by
  induction l with
  | nil => simp [List.lookup]
  | cons p ps ih =>
      simp only [List.map_cons, List.mem_cons] at h
      push_neg at h
      obtain ⟨h1, h2⟩ := h
      simp only [List.cons_append, List.lookup]
      rw [show (k == p.1) = false from beq_eq_false_iff_ne.mpr h1]
      exact ih h2

theorem eraseField_of_not_mem {l : List (String × JsonValue)} {k : String}
    (h : k ∉ l.map Prod.fst) : eraseField l k = l := by
  unfold eraseField
  refine List.filter_eq_self.mpr fun p hp => ?_
  simp only [bne_iff_ne, ne_eq]
  intro he
  exact h (List.mem_map.mpr ⟨p, hp, he⟩)

theorem stripDigestFields_embed {doc : List (String × JsonValue)} {d : JsonValue}
    (h1 : "sha256_hash" ∉ doc.map Prod.fst) (h2 : "hash" ∉ doc.map Prod.fst) :
    stripDigestFields (doc ++ [("sha256_hash", d)]) = doc := by
  unfold stripDigestFields
  have ha : eraseField (doc ++ [("sha256_hash", d)]) "sha256_hash" = doc := by
    unfold eraseField
    rw [List.filter_append]
    have hx : List.filter (fun p => p.1 != "sha256_hash") [("sha256_hash", d)] = [] := by
      simp
    rw [hx, List.append_nil]
    exact eraseField_of_not_mem h1
  rw [ha]
  exact eraseField_of_not_mem h2

/-- Claim C1: embedding the digest of a digest-free document under
`sha256_hash` and verifying the result succeeds. The digest of `doc` is the
lowercase-hex SHA-256 of the UTF-8 canonical form of `doc`. -/
theorem solpay_C1_roundtrip (doc : List (String × JsonValue))
    (h1 : "sha256_hash" ∉ doc.map Prod.fst) (h2 : "hash" ∉ doc.map Prod.fst) :
    verifyReceipt
      (doc ++ [("sha256_hash", .str (sha256hex (canonicalJSON (.obj doc))))]) = true := by
  unfold verifyReceipt
  rw [lookup_append_of_not_mem h1]
  unfold computedHash canonicalInput
  rw [stripDigestFields_embed h1 h2]
  simp

/-- Witness for C1 at a concrete one-field receipt. -/
theorem solpay_C1_roundtrip_witness :
    verifyReceipt
      ([("amount", JsonValue.num 10)] ++
        [("sha256_hash",
          .str (sha256hex (canonicalJSON (.obj [("amount", JsonValue.num 10)]))))]) = true :=
  solpay_C1_roundtrip [("amount", JsonValue.num 10)] (by decide) (by decide)

/-- `receipt[k] = v`: every member named `k` gets the value `v`; other
members are unchanged. On a JavaScript object the key occurs at most once, so
this is the plain field assignment. -/
def setField (members : List (String × JsonValue)) (k : String) (v : JsonValue) :
    List (String × JsonValue) :=
  members.map fun p => if p.1 = k then (k, v) else p

theorem eraseField_setField (l : List (String × JsonValue)) (k : String)
    (v : JsonValue) : eraseField (setField l k v) k = eraseField l k := by
  induction l with
  | nil => rfl
  | cons p ps ih =>
      by_cases h : p.1 = k
      · simp only [setField, List.map_cons, if_pos h, eraseField, List.filter_cons] at ih ⊢
        have hk : (k != k) = false := by simp
        have hp : (p.1 != k) = false := by simp [h]
        rw [hk, hp]
        simpa [setField, eraseField] using ih
      · simp only [setField, List.map_cons, if_neg h, eraseField, List.filter_cons] at ih ⊢
        have hp : (p.1 != k) = true := by simp [h]
        rw [hp]
        simpa [setField, eraseField] using ih

theorem stripDigestFields_setField (l : List (String × JsonValue)) (v : JsonValue) :
    stripDigestFields (setField l "sha256_hash" v) = stripDigestFields l := by
  unfold stripDigestFields
  rw [eraseField_setField]

/-- Claim C3: the digest computed by `verifyReceipt` does not depend on the
value stored in the `sha256_hash` field — the two runs with that field set to
`v1` and to `v2` compute the same digest. -/
theorem solpay_C3_digest_noninterference (doc : List (String × JsonValue))
    (v1 v2 : JsonValue) :
    computedHash (setField doc "sha256_hash" v1) =
      computedHash (setField doc "sha256_hash" v2) := by
  unfold computedHash canonicalInput
  rw [stripDigestFields_setField, stripDigestFields_setField]

/-- Substring test on character lists, by checking a prefix at each suffix. -/
def containsSub (hay sub : List Char) : Bool :=
  match hay with
  | [] => sub.isEmpty
  | _ :: t => sub.isPrefixOf hay || containsSub t sub

/-- Substring test on strings. -/
def stringContains (hay sub : String) : Bool := containsSub hay.data sub.data

/-- A receipt whose nested `settlement` object itself carries a `sha256_hash`
member; the reference verifier removes aliases only at the top level. -/
def nestedAliasReceipt : List (String × JsonValue) :=
  [("settlement", .obj [("sha256_hash", .str "zz")]), ("sha256_hash", .str "yy")]

/-- Counterexample to claim C7: after digest-field removal, the nested
`sha256_hash` member survives, and the exact string that `verifyReceipt`
canonicalizes and hashes still contains the alias as a member. -/
theorem solpay_C7_counterexample :
    stripDigestFields nestedAliasReceipt =
        [("settlement", .obj [("sha256_hash", .str "zz")])] ∧
    canonicalInput nestedAliasReceipt =
        "\x7b\"settlement\":\x7b\"sha256_hash\":\"zz\"\x7d\x7d" ∧
    stringContains (canonicalInput nestedAliasReceipt) "\"sha256_hash\":" = true := by
  have h : canonicalInput nestedAliasReceipt =
      "\x7b\"settlement\":\x7b\"sha256_hash\":\"zz\"\x7d\x7d" := by
    unfold canonicalInput
    rw [canonicalJSON_big _ (by decide)]
    decide
  refine ⟨rfl, h, ?_⟩
  rw [h]
  decide

/-- Claim C7 as amended: both digest aliases are removed from the top level of
the document before canonicalization — no top-level member of the hashed
document is named `sha256_hash` or `hash` — but nested objects are not
traversed, so a nested alias can still be hashed. -/
theorem solpay_C7_amended (doc : List (String × JsonValue)) :
    "sha256_hash" ∉ (stripDigestFields doc).map Prod.fst ∧
    "hash" ∉ (stripDigestFields doc).map Prod.fst := by
  constructor <;>
    · intro hmem
      obtain ⟨p, hp, hfst⟩ := List.mem_map.mp hmem
      unfold stripDigestFields eraseField at hp
      have h2 := List.of_mem_filter hp
      have h1 := List.of_mem_filter (List.mem_of_mem_filter hp)
      simp only [bne_iff_ne, ne_eq] at h1 h2
      first
        | exact h1 hfst
        | exact h2 hfst

/-- The documented example receipt. In JavaScript the literal `10.0` is the
integral double ten, the same value as the literal `10`. -/
def exampleReceipt : List (String × JsonValue) :=
  [("amount", .num 10), ("merchant", .str "ABC123"), ("sha256_hash", .str "xxx")]

/-- Claim C4, evaluated on the code: `canonicalJSON` renders the example's
amount as `10`, not `10.0` — ECMAScript stringifies the integral double
without a decimal point — so the canonical form is not the documented string
and the digest is the SHA-256 of the `10` form. -/
theorem solpay_C4_number_rendering :
    canonicalInput exampleReceipt = "\x7b\"amount\":10,\"merchant\":\"ABC123\"\x7d" ∧
    canonicalInput exampleReceipt ≠ "\x7b\"amount\":10.0,\"merchant\":\"ABC123\"\x7d" ∧
    computedHash exampleReceipt =
      "a13162003cd44a14a418eafd04d7acd4e7d048ec070716d2dc91d6606c121a9b" := by
  have h : canonicalInput exampleReceipt =
      "\x7b\"amount\":10,\"merchant\":\"ABC123\"\x7d" := by
    unfold canonicalInput
    rw [canonicalJSON_big _ (by decide)]
    decide
  refine ⟨h, by rw [h]; decide, ?_⟩
  unfold computedHash
  rw [h]
  decide

/-!
The SDK client's `verifyReceipt`, from the concatenated `sdk/js` TypeScript
source shipped inside the repository's demo document. After the transport
layer fetches and parses the receipt, the function reads
`receipt.sha256_hash || receipt.hash`, throws
`Receipt does not contain sha256_hash field` when that is falsy, computes the
canonical hash with the same spread-copy, double-delete, canonical-JSON,
SHA-256 pipeline as the manual reference code, and compares with strict
equality; the surrounding try/catch converts every throw into an error
result with empty digest strings and no receipt field.
-/

/-- The `ReceiptVerification` record of the SDK. The TypeScript interface
declares `reported_hash` a string, but the success path stores whatever JSON
value the digest member held, so the field carries a `JsonValue` here; the
catch path stores the empty string. -/
structure ReceiptVerification where
  ok : Bool
  computed_hash : String
  reported_hash : JsonValue
  receipt : Option JsonValue
  error : Option String
  deriving Repr

/-- JavaScript truthiness of a parsed JSON value: `null`, `false`, the zero
number and the empty string are falsy; everything else, arrays and objects
included, is truthy. -/
def isTruthy : JsonValue → Bool
  | .null => false
  | .bool b => b
  | .num n => n != 0
  | .str s => s != ""
  | .arr _ => true
  | .obj _ => true

/-- A member value in a boolean context: an absent member is `undefined`,
which is falsy, and a present falsy value is discarded the same way. -/
def truthyValue : Option JsonValue → Option JsonValue
  | some v => if isTruthy v then some v else none
  | none => none

/-- `receipt.sha256_hash || receipt.hash`, combined with the following
`if (!reportedHash) throw` check: the first truthy value among the two
digest aliases, if any. -/
def reportedHashOf (members : List (String × JsonValue)) : Option JsonValue :=
  match truthyValue (members.lookup "sha256_hash") with
  | some v => some v
  | none => truthyValue (members.lookup "hash")

/-- The verification part of the SDK's `verifyReceipt`, applied to the
parsed receipt object. Fetching and JSON parsing happen before this point; a
fetch or parse failure takes the same catch path with its own message. On a
missing or falsy digest the internal throw is caught and returned as an
error result; otherwise the canonical hash is compared with the reported
value by strict equality, which is false for any non-string. -/
def sdkVerifyReceipt (members : List (String × JsonValue)) : ReceiptVerification :=
  match reportedHashOf members with
  | none =>
      ⟨false, "", .str "", none, some "Receipt does not contain sha256_hash field"⟩
  | some reported =>
      let computed := computedHash members
      ⟨(match reported with | .str r => computed == r | _ => false),
       computed, reported, some (.obj members), none⟩

/-- Counterexample to claim C6: on a document lacking both digest fields,
the SDK verification result carries the error message produced by the
caught internal throw, `Receipt does not contain sha256_hash field`, not
the claimed `missing digest field`. -/
theorem solpay_C6_counterexample :
    (sdkVerifyReceipt [("amount", JsonValue.num 10)]).error =
      some "Receipt does not contain sha256_hash field" ∧
    (sdkVerifyReceipt [("amount", JsonValue.num 10)]).error ≠
      some "missing digest field" ∧
    (sdkVerifyReceipt [("amount", JsonValue.num 10)]).ok = false := by
  refine ⟨rfl, ?_, rfl⟩
  decide

/-- Claim C6 as amended: on a parsed object lacking both recognized digest
fields, the SDK's verification returns rather than throws — the internal
throw is caught — with `ok = false`, the error message
`Receipt does not contain sha256_hash field`, empty computed and reported
digests, and no receipt payload. -/
theorem solpay_C6_missing_digest (members : List (String × JsonValue))
    (h1 : members.lookup "sha256_hash" = none)
    (h2 : members.lookup "hash" = none) :
    sdkVerifyReceipt members =
      ⟨false, "", .str "", none,
       some "Receipt does not contain sha256_hash field"⟩ := by
  simp only [sdkVerifyReceipt, reportedHashOf, h1, h2, truthyValue]

/-- Witness for the amended C6 at a concrete digest-free document. -/
theorem solpay_C6_missing_digest_witness :
    sdkVerifyReceipt [("amount", JsonValue.num 10)] =
      ⟨false, "", .str "", none,
       some "Receipt does not contain sha256_hash field"⟩ :=
  solpay_C6_missing_digest [("amount", JsonValue.num 10)] rfl rfl

/-- The x402 facilitator context carried by every payment-intent creation
request. -/
structure X402Context where
  facilitator_id : String
  network : String
  resource : String
  deriving Repr

/-- The payment-intent request body of the part_005 debug test script, field
for field. The JavaScript number `0.1` is carried as the rational its source
text denotes; request bodies are never canonicalized or hashed, so only the
fields' presence matters here. -/
structure PaymentIntentBody where
  amount : ℚ
  currency : String
  merchant_wallet : String
  customer_email : String
  metadata : List (String × JsonValue)
  x402_context : X402Context
  deriving Repr

/-- The `body` object literal of the debug test script, for a given merchant
wallet. -/
def debugRequestBody (merchantWallet : String) : PaymentIntentBody :=
  ⟨1 / 10, "USDC", merchantWallet, "test@example.com",
    [("test", .bool true), ("sdk", .str "@solpay/x402-sdk"),
     ("sdk_version", .str "1.0.0")],
    ⟨"facilitator.payai.network", "solana:devnet",
     "https://www.solpay.cash/api/v1/payment_intents"⟩⟩

/-- The debug test script pins its network to `solana:devnet`. -/
theorem debugRequestBody_network (merchantWallet : String) :
    (debugRequestBody merchantWallet).x402_context.network = "solana:devnet" := rfl

/-!
The SDK client's configuration, constructor and `createPaymentIntent`, from
the same concatenated TypeScript source. The configuration's `network` field
is annotated with the union type of the two documented identifiers, but
TypeScript types are erased at runtime: the constructor rejects only a falsy
(absent or empty) network string, and `createPaymentIntent` copies whatever
string the configuration holds into the request body's x402 context.
-/

/-- `SolPayX402Config`, the constructor argument; optional fields carry
`none` when absent. The `network` field is a runtime string (its TypeScript
annotation is the union of the two documented identifiers, which the erased
types do not enforce). -/
structure SolPayX402Config where
  apiBase : String
  merchantWallet : String
  network : String
  facilitatorId : Option String
  facilitatorUrl : Option String
  apiKey : Option String
  debug : Option Bool
  deriving Repr

/-- The resolved `this.config` after the constructor's defaults-then-spread. -/
structure ClientState where
  apiBase : String
  merchantWallet : String
  network : String
  facilitatorId : String
  facilitatorUrl : String
  apiKey : String
  debug : Bool
  deriving Repr

/-- The `SolPayX402` constructor: fill the defaults by spreading the caller
configuration over them, then throw on a falsy `apiBase`, `merchantWallet`
or `network`. For these string fields falsy means empty or absent; an absent
required field is modelled by the empty string, which the check treats
identically. -/
def mkSolPayX402 (config : SolPayX402Config) : Except String ClientState :=
  let resolved : ClientState :=
    ⟨config.apiBase, config.merchantWallet, config.network,
     config.facilitatorId.getD "facilitator.payai.network",
     config.facilitatorUrl.getD "https://facilitator.payai.network",
     config.apiKey.getD "", config.debug.getD false⟩
  if resolved.apiBase = "" then .error "apiBase is required"
  else if resolved.merchantWallet = "" then .error "merchantWallet is required"
  else if resolved.network = "" then .error "network is required"
  else .ok resolved

/-- `PayParams` of the SDK; the amount is a JavaScript number, carried as
the rational its source text denotes and never serialized here. -/
structure PayParams where
  amount : ℚ
  asset : String
  customerEmail : Option String
  metadata : List (String × JsonValue)
  successUrl : Option String
  cancelUrl : Option String
  deriving Repr

/-- Object-spread update: a present member is overwritten in place, a new
one appended at the end, as in the body's metadata literal. -/
def upsertField (members : List (String × JsonValue)) (k : String)
    (v : JsonValue) : List (String × JsonValue) :=
  if k ∈ members.map Prod.fst then setField members k v else members ++ [(k, v)]

/-- The metadata object sent by `createPaymentIntent`: the caller's
metadata with the `sdk` and `sdk_version` members set. -/
def sdkMetadata (metadata : List (String × JsonValue)) :
    List (String × JsonValue) :=
  upsertField (upsertField metadata "sdk" (.str "@solpay/x402-sdk"))
    "sdk_version" (.str "1.0.0")

/-- The request body literal of the SDK's `createPaymentIntent`, field for
field. -/
structure PaymentIntentRequestBody where
  amount : ℚ
  asset : String
  merchant_wallet : String
  customer_email : Option String
  metadata : List (String × JsonValue)
  x402_context : X402Context
  success_url : Option String
  cancel_url : Option String
  deriving Repr

/-- The body constructed by the SDK's `createPaymentIntent`: the x402
context is populated from the client's configuration, its network copied
verbatim from `this.config.network`. -/
def createPaymentIntentBody (client : ClientState) (params : PayParams) :
    PaymentIntentRequestBody :=
  ⟨params.amount, params.asset, client.merchantWallet, params.customerEmail,
   sdkMetadata params.metadata,
   ⟨client.facilitatorId, client.network,
    client.apiBase ++ "/api/v1/payment_intents"⟩,
   params.successUrl, params.cancelUrl⟩

/-- A syntactically well-formed configuration whose network string is
neither of the two documented identifiers. -/
def bogusNetworkConfig : SolPayX402Config :=
  ⟨"https://www.solpay.cash", "DsAfN2mwcc3EuJ1gFMtwEddNbaNgp64kDzHFmKF62k2z",
   "solana:testnet", none, none, none, none⟩

/-- Payment parameters of the quick-test flow. -/
def quickTestParams : PayParams :=
  ⟨1 / 10, "USDC", some "test@example.com", [], none, none⟩

/-- Counterexample to claim C9: the constructor checks the network string
only for truthiness — the TypeScript union annotation is erased at runtime,
and the PHP port in the same repository even prescribes the different
identifiers `mainnet-beta`, `devnet` and `testnet` — so a client configured
with `solana:testnet` is accepted and constructs a request body whose x402
network is neither `solana:devnet` nor `solana:mainnet`. -/
theorem solpay_C9_counterexample :
    ∃ client : ClientState,
      mkSolPayX402 bogusNetworkConfig = Except.ok client ∧
      (createPaymentIntentBody client quickTestParams).x402_context.network =
        "solana:testnet" ∧
      (createPaymentIntentBody client quickTestParams).x402_context.network ≠
        "solana:devnet" ∧
      (createPaymentIntentBody client quickTestParams).x402_context.network ≠
        "solana:mainnet" := by
  refine ⟨_, rfl, rfl, by decide, by decide⟩

/-- Claim C9 as amended: every outbound payment-intent creation body built
by a successfully constructed client carries a populated network member in
its x402 context — it equals the client's configured network string, which
the constructor guarantees nonempty, and is never absent or left to a
server-side default. The two documented identifiers are a type-level
contract that the runtime does not enforce. -/
theorem solpay_C9_network_field (config : SolPayX402Config)
    (client : ClientState) (h : mkSolPayX402 config = Except.ok client)
    (params : PayParams) :
    (createPaymentIntentBody client params).x402_context.network =
      config.network ∧ config.network ≠ "" := by
  unfold mkSolPayX402 at h
  dsimp only at h
  split_ifs at h with h1 h2 h3
  rw [Except.ok.injEq] at h
  subst h
  exact ⟨rfl, h3⟩

/-- The quick-test configuration and the client it resolves to. -/
def devnetConfig : SolPayX402Config :=
  ⟨"https://www.solpay.cash", "DsAfN2mwcc3EuJ1gFMtwEddNbaNgp64kDzHFmKF62k2z",
   "solana:devnet", none, none, none, none⟩

/-- The resolved client state of `devnetConfig`. -/
def devnetClient : ClientState :=
  ⟨"https://www.solpay.cash", "DsAfN2mwcc3EuJ1gFMtwEddNbaNgp64kDzHFmKF62k2z",
   "solana:devnet", "facilitator.payai.network",
   "https://facilitator.payai.network", "", false⟩

/-- Witness for the amended C9 at the quick-test configuration. -/
theorem solpay_C9_network_field_witness :
    (createPaymentIntentBody devnetClient quickTestParams).x402_context.network =
      devnetConfig.network ∧ devnetConfig.network ≠ "" :=
  solpay_C9_network_field devnetConfig devnetClient rfl quickTestParams

/-- The heap-level reading of `verifyReceipt`: objects live in a store
indexed by address, the spread `\x7b...receipt\x7d` allocates a fresh object
holding the same members, and both `delete` statements write to that fresh
address only. Nested values are pure in this model, which matches the code:
the shallow copy shares nested objects, but no statement ever writes through
them. -/
def verifyRun (heap : List (List (String × JsonValue))) (receiptAddr : Nat) :
    Bool × List (List (String × JsonValue)) :=
  let receipt := heap.getD receiptAddr []
  let reported := receipt.lookup "sha256_hash"
  let canonicalAddr := heap.length
  let heap1 := heap ++ [receipt]
  let heap2 :=
    heap1.set canonicalAddr (eraseField (heap1.getD canonicalAddr []) "sha256_hash")
  let heap3 :=
    heap2.set canonicalAddr (eraseField (heap2.getD canonicalAddr []) "hash")
  let computed := sha256hex (canonicalJSON (.obj (heap3.getD canonicalAddr [])))
  (match reported with
   | some (.str r) => computed == r
   | _ => false,
   heap3)

/-- Claim C10: `verifyReceipt` never mutates its input. After the run, every
object that existed before — the receipt in particular, with its digest
members intact — is unchanged on the heap, and the returned verdict is the
one computed by the pure reading of the function. -/
theorem solpay_C10_input_unchanged (heap : List (List (String × JsonValue)))
    (receiptAddr : Nat) (ha : receiptAddr < heap.length) :
    (∀ addr : Nat, addr < heap.length →
      (verifyRun heap receiptAddr).2.getD addr [] = heap.getD addr []) ∧
    (verifyRun heap receiptAddr).1 = verifyReceipt (heap.getD receiptAddr []) := by
  constructor
  · intro addr haddr
    unfold verifyRun
    simp only [List.getD_eq_getElem?_getD]
    rw [List.getElem?_set_ne (by omega), List.getElem?_set_ne (by omega),
      List.getElem?_append_left haddr]
  · have hX : ∀ (H : List (List (String × JsonValue)))
        (R : List (String × JsonValue)),
        (((H ++ [R]).set H.length
              (eraseField ((H ++ [R]).getD H.length []) "sha256_hash")).set H.length
            (eraseField
              (((H ++ [R]).set H.length
                  (eraseField ((H ++ [R]).getD H.length []) "sha256_hash")).getD
                H.length [])
              "hash")).getD H.length [] = stripDigestFields R := by
      intro H R
      have e1 : (H ++ [R]).getD H.length [] = R := by
        rw [List.getD_eq_getElem?_getD, List.getElem?_concat_length]
        rfl
      rw [e1]
      have e2 : ((H ++ [R]).set H.length (eraseField R "sha256_hash")).getD
          H.length [] = eraseField R "sha256_hash" := by
        rw [List.getD_eq_getElem?_getD, List.getElem?_set_eq_of_lt _ (by simp),
          Option.getD_some]
      rw [e2]
      rw [List.getD_eq_getElem?_getD, List.getElem?_set_eq_of_lt _ (by simp),
        Option.getD_some]
      rfl
    unfold verifyRun verifyReceipt
    dsimp only
    rw [hX heap (heap.getD receiptAddr [])]
    rfl

/-- Witness for C10 at a one-object heap. -/
theorem solpay_C10_input_unchanged_witness :
    (∀ addr : Nat, addr < [exampleReceipt].length →
      (verifyRun [exampleReceipt] 0).2.getD addr [] = [exampleReceipt].getD addr []) ∧
    (verifyRun [exampleReceipt] 0).1 = verifyReceipt ([exampleReceipt].getD 0 []) :=
  solpay_C10_input_unchanged [exampleReceipt] 0 (by decide)

/-- `w` is `v` with the member order of its objects permuted, at the top
level and at every nesting depth: scalars are unchanged, arrays keep their
element order with each element related recursively, and an object is first
related member-by-member (same keys, values related recursively) and then
reordered by a permutation. -/
inductive KeyPerm : JsonValue → JsonValue → Prop where
  | null : KeyPerm .null .null
  | bool (b : Bool) : KeyPerm (.bool b) (.bool b)
  | num (n : Int) : KeyPerm (.num n) (.num n)
  | str (s : String) : KeyPerm (.str s) (.str s)
  | arr (xs ys : List JsonValue) (hlen : xs.length = ys.length)
      (helem : ∀ (i : Nat) (hx : i < xs.length) (hy : i < ys.length),
        KeyPerm (xs.get ⟨i, hx⟩) (ys.get ⟨i, hy⟩)) :
      KeyPerm (.arr xs) (.arr ys)
  | obj (l mid m : List (String × JsonValue)) (hlen : l.length = mid.length)
      (hkey : ∀ (i : Nat) (hx : i < l.length) (hy : i < mid.length),
        (l.get ⟨i, hx⟩).1 = (mid.get ⟨i, hy⟩).1)
      (hval : ∀ (i : Nat) (hx : i < l.length) (hy : i < mid.length),
        KeyPerm (l.get ⟨i, hx⟩).2 (mid.get ⟨i, hy⟩).2)
      (hperm : mid.Perm m) :
      KeyPerm (.obj l) (.obj m)

/-- The serializer is invariant under recursive member reordering: sorting
the members makes the emitted string depend only on the set of rendered
members, which a permutation preserves. -/
theorem keyPerm_canonicalJSON {v w : JsonValue} (h : KeyPerm v w) :
    canonicalJSON v = canonicalJSON w := by
  induction h with
  | null => rfl
  | bool b => rfl
  | num n => rfl
  | str s => rfl
  | arr xs ys hlen helem ih =>
      rw [canonicalJSON_arr, canonicalJSON_arr]
      have hmap : xs.map canonicalJSON = ys.map canonicalJSON := by
        apply List.ext_getElem (by simp [hlen])
        intro i h1 h2
        simp only [List.getElem_map]
        exact ih i (by simpa using h1) (by simpa using h2)
      rw [hmap]
  | obj l mid m hlen hkey hval hperm ih =>
      rw [canonicalJSON_obj, canonicalJSON_obj]
      have hmap : (l.map fun p => (p.1, canonicalJSON p.2)) =
          mid.map fun p => (p.1, canonicalJSON p.2) := by
        apply List.ext_getElem (by simp [hlen])
        intro i h1 h2
        simp only [List.getElem_map]
        refine Prod.ext (hkey i (by simpa using h1) (by simpa using h2)) ?_
        exact ih i (by simpa using h1) (by simpa using h2)
      have hperm2 : ((l.map fun p => (p.1, canonicalJSON p.2)).Perm
          (m.map fun p => (p.1, canonicalJSON p.2))) := by
        rw [hmap]
        exact hperm.map _
      have hsorted :=
        List.eq_of_perm_of_sorted
          ((List.perm_insertionSort memberLe _).trans
            (hperm2.trans (List.perm_insertionSort memberLe _).symm))
          (List.sorted_insertionSort memberLe _)
          (List.sorted_insertionSort memberLe _)
      rw [hsorted]

/-- Claim C2: two documents that agree up to the order of their object
members — at the top level and at every nesting depth — canonicalize to the
same string, and hence their SHA-256 digests agree. -/
theorem solpay_C2_key_order_independence (R Rp : JsonValue) (h : KeyPerm R Rp) :
    canonicalJSON R = canonicalJSON Rp ∧
    sha256hex (canonicalJSON R) = sha256hex (canonicalJSON Rp) := by
  have hc := keyPerm_canonicalJSON h
  exact ⟨hc, congrArg sha256hex hc⟩

/-- Witness for C2 on the spec's example pair, the two-member object with its
member order swapped. -/
theorem solpay_C2_key_order_independence_witness :
    canonicalJSON (.obj [("a", .num 1), ("b", .num 2)]) =
      canonicalJSON (.obj [("b", .num 2), ("a", .num 1)]) ∧
    sha256hex (canonicalJSON (.obj [("a", .num 1), ("b", .num 2)])) =
      sha256hex (canonicalJSON (.obj [("b", .num 2), ("a", .num 1)])) := by
  refine solpay_C2_key_order_independence _ _ ?_
  refine KeyPerm.obj [("a", .num 1), ("b", .num 2)] [("a", .num 1), ("b", .num 2)]
    [("b", .num 2), ("a", .num 1)] rfl (fun i hx hy => rfl) ?_ ?_
  · intro i hx hy
    simp only [List.length_cons, List.length_nil] at hx
    interval_cases i
    · exact KeyPerm.num 1
    · exact KeyPerm.num 2
  · exact List.Perm.swap _ _ _

/-- Counterexample to claim C5: a key containing a double quote is
interpolated raw into the member template, not JSON-string-escaped, so the
serialized object embeds the bare quote and differs from the escaped-key
rendering. -/
theorem solpay_C5_counterexample :
    canonicalJSON (.obj [("a\"b", .num 1)]) = "\x7b\"a\"b\":1\x7d" ∧
    canonicalJSON (.obj [("a\"b", .num 1)]) ≠
      "\x7b" ++ escapeString "a\"b" ++ ":1\x7d" := by
  have h : canonicalJSON (.obj [("a\"b", .num 1)]) = "\x7b\"a\"b\":1\x7d" := by
    rw [canonicalJSON_big _ (by decide)]
    decide
  refine ⟨h, ?_⟩
  rw [h]
  decide

/-- Ascending key order used on `Object.keys(obj).sort()`. -/
def keyLe (a b : String) : Prop := jsStringLe a b = true

instance : DecidableRel keyLe := fun a b =>
  inferInstanceAs (Decidable (_ = _))

instance : IsTotal String keyLe where
  total := jsStringLe_total

instance : IsTrans String keyLe where
  trans _ _ _ := jsStringLe_trans

instance : IsAntisymm String keyLe where
  antisymm _ _ := jsStringLe_antisymm

/-- The member rendered from a key by looking its value up in the object:
the literal reading of the source's sorted `Object.keys` plus `obj[key]`
indexing. The default on a failed lookup is never taken, because the keys
come from the object itself. -/
def memberOfKey (members : List (String × JsonValue)) (k : String) :
    String × String :=
  (k, canonicalJSON ((members.lookup k).getD .null))

theorem lookup_cons_ne {k kh : String} {v : JsonValue}
    {ps : List (String × JsonValue)} (h : k ≠ kh) :
    ((kh, v) :: ps).lookup k = ps.lookup k := by
  simp only [List.lookup]
  rw [show (k == kh) = false from beq_eq_false_iff_ne.mpr h]

theorem keys_map_memberOfKey (members : List (String × JsonValue))
    (hnd : (members.map Prod.fst).Nodup) :
    (members.map Prod.fst).map (memberOfKey members) =
      members.map fun p => (p.1, canonicalJSON p.2) := by
  induction members with
  | nil => rfl
  | cons p ps ih =>
      obtain ⟨k, v⟩ := p
      simp only [List.map_cons, List.nodup_cons] at hnd ⊢
      obtain ⟨hk, hnd2⟩ := hnd
      refine congrArg₂ (· :: ·) ?_ ?_
      · simp [memberOfKey, List.lookup]
      · rw [← ih hnd2]
        refine List.map_congr_left fun kt hkt => ?_
        unfold memberOfKey
        rw [lookup_cons_ne fun he => hk (by rw [← he]; exact hkt)]

theorem keyLe_memberOfKey_le (members : List (String × JsonValue))
    {a b : String} (h : keyLe a b) :
    memberLe (memberOfKey members a) (memberOfKey members b) := by
  unfold keyLe jsStringLe at h
  cases hlt : jsStringLt a b with
  | true => exact Or.inl hlt
  | false =>
      have hba : jsStringLt b a = false := by
        cases hba : jsStringLt b a with
        | false => rfl
        | true => rw [hba] at h; exact absurd h (by simp)
      have he : a = b := jsStringLt_conn hlt hba
      subst he
      exact Or.inr ⟨rfl, by simp [jsStringLe, jsStringLt_irrefl]⟩

/-- Claim C5 as amended: the serializer emits the members sorted ascending by
UTF-16 code-unit order of the keys — JavaScript's default comparator, which
agrees with code-point order only away from surrogate pairs — each member
rendered as the raw key, not its JSON-string-escaped form, between double
quotes, a colon, and the recursively serialized value, joined by commas and
wrapped in braces. This is the literal `Object.keys(obj).sort()` plus
`obj[key]` reading of the source, stated for key-unique objects, the only
ones JavaScript has. -/
theorem solpay_C5_amended (members : List (String × JsonValue))
    (hnd : (members.map Prod.fst).Nodup) :
    canonicalJSON (.obj members) =
      "\x7b" ++
        String.intercalate ","
          (((members.map Prod.fst).insertionSort keyLe).map fun k =>
            "\"" ++ k ++ "\":" ++ canonicalJSON ((members.lookup k).getD .null)) ++
      "\x7d" := by
  rw [canonicalJSON_obj]
  have hlist : (members.map fun p => (p.1, canonicalJSON p.2)).insertionSort memberLe
      = ((members.map Prod.fst).insertionSort keyLe).map (memberOfKey members) := by
    have heq := keys_map_memberOfKey members hnd
    have hperm : ((members.map fun p => (p.1, canonicalJSON p.2)).insertionSort
        memberLe).Perm
          (((members.map Prod.fst).insertionSort keyLe).map (memberOfKey members)) := by
      refine (List.perm_insertionSort memberLe _).trans ?_
      rw [← heq]
      exact ((List.perm_insertionSort keyLe _).map (memberOfKey members)).symm
    refine List.eq_of_perm_of_sorted hperm (List.sorted_insertionSort memberLe _) ?_
    exact List.Pairwise.map (memberOfKey members)
      (fun a b hab => keyLe_memberOfKey_le members hab)
      (List.sorted_insertionSort keyLe _)
  rw [hlist, List.map_map]
  rfl

/-- Witness for the amended C5 at a concrete two-member object. -/
theorem solpay_C5_amended_witness :
    canonicalJSON (.obj [("b", .num 2), ("a", .num 1)]) =
      "\x7b" ++
        String.intercalate ","
          ((([("b", JsonValue.num 2), ("a", JsonValue.num 1)].map
              Prod.fst).insertionSort keyLe).map fun k =>
            "\"" ++ k ++ "\":" ++
              canonicalJSON
                (([("b", JsonValue.num 2), ("a", JsonValue.num 1)].lookup k).getD
                  .null)) ++
      "\x7d" :=
  solpay_C5_amended [("b", .num 2), ("a", .num 1)] (by decide)

theorem lookup_setField_ne {l : List (String × JsonValue)} {k kq : String}
    {w : JsonValue} (h : kq ≠ k) : (setField l k w).lookup kq = l.lookup kq := by
  induction l with
  | nil => rfl
  | cons p ps ih =>
      by_cases hp : p.1 = k
      · have hhead : setField (p :: ps) k w = (k, w) :: setField ps k w := by
          simp [setField, hp]
        rw [hhead]
        simp only [List.lookup]
        rw [show (kq == k) = false from beq_eq_false_iff_ne.mpr h,
          show (kq == p.1) = false from beq_eq_false_iff_ne.mpr (by rw [hp]; exact h)]
        exact ih
      · have hhead : setField (p :: ps) k w = p :: setField ps k w := by
          simp [setField, hp]
        rw [hhead]
        simp only [List.lookup]
        cases hkq : kq == p.1 with
        | true => rfl
        | false => exact ih

theorem w32hex_length (n : Nat) : (w32hex n).length = 8 := rfl

theorem sha256hex_length (s : String) : (sha256hex s).length = 64 := by
  unfold sha256hex hash8hex
  simp [String.length_append, w32hex_length]

/-- The sixteen lowercase hexadecimal digit characters. -/
def hexFinset : Finset Char :=
  ⟨Multiset.ofList "0123456789abcdef".data, by decide⟩

instance : Fintype ↥hexFinset := FinsetCoe.fintype _

theorem hexDigit_mem_hexFinset : ∀ n < 16, hexDigit n ∈ hexFinset := by decide

theorem mem_hexFinset_of_mem_w32hex {c : Char} {n : Nat}
    (h : c ∈ (w32hex n).data) : c ∈ hexFinset := by
  have h2 : c ∈
      [hexDigit ((n >>> 28) &&& 15), hexDigit ((n >>> 24) &&& 15),
       hexDigit ((n >>> 20) &&& 15), hexDigit ((n >>> 16) &&& 15),
       hexDigit ((n >>> 12) &&& 15), hexDigit ((n >>> 8) &&& 15),
       hexDigit ((n >>> 4) &&& 15), hexDigit (n &&& 15)] := h
  simp only [List.mem_cons, List.not_mem_nil, or_false] at h2
  rcases h2 with rfl | rfl | rfl | rfl | rfl | rfl | rfl | rfl <;>
    exact hexDigit_mem_hexFinset _ (Nat.lt_succ_of_le Nat.and_le_right)

theorem sha256hex_data_mem (s : String) :
    ∀ c ∈ (sha256hex s).data, c ∈ hexFinset := by
  intro c hc
  simp only [sha256hex, hash8hex, String.data_append, List.mem_append] at hc
  rcases hc with ((((((hc | hc) | hc) | hc) | hc) | hc) | hc) | hc <;>
    exact mem_hexFinset_of_mem_w32hex hc

/-- The character of a binary choice, `a` or `b`. -/
def bitChar (b : Bool) : Char := if b then 'b' else 'a'

/-- An ASCII string of 257 `a`/`b` characters — an unexceptional JavaScript
string, far below the language's string-length limit. -/
def bitString (bs : Fin 257 → Bool) : String :=
  String.mk ((List.ofFn bs).map bitChar)

/-- A one-field receipt carrying such a string. -/
def bitReceipt (bs : Fin 257 → Bool) : List (String × JsonValue) :=
  [("a", .str (bitString bs))]

theorem bitString_inj {b1 b2 : Fin 257 → Bool} (h : bitString b1 = bitString b2) :
    b1 = b2 := by
  unfold bitString at h
  injection h with hdata
  have hofFn : List.ofFn b1 = List.ofFn b2 := by
    refine List.map_injective_iff.mpr ?_ hdata
    intro x y hxy
    cases x <;> cases y <;> simp [bitChar] at hxy ⊢
  exact List.ofFn_injective hofFn

/-- The digest of a bit-string receipt, read as its 64 hex characters. -/
def digestChars (bs : Fin 257 → Bool) : Fin 64 → ↥hexFinset := fun i =>
  ⟨(computedHash (bitReceipt bs)).data.get ⟨i.val, by
      have hl : (computedHash (bitReceipt bs)).length = 64 := sha256hex_length _
      have hd : (computedHash (bitReceipt bs)).data.length = 64 := hl
      omega⟩,
   sha256hex_data_mem (canonicalInput (bitReceipt bs)) _ (List.get_mem _ _ _)⟩

/-- There are 2 ^ 257 bit-string receipts — every one of them an ordinary
JavaScript object with a single 257-character ASCII string field — while the
digests are 64-character lowercase-hex strings, of which there are only
16 ^ 64 = 2 ^ 256. Two distinct receipts therefore share a digest. The
collision is nonconstructive: exhibiting one concretely would be exhibiting
a SHA-256 collision, an open problem; its existence is a counting fact about
any 256-bit digest. -/
theorem digest_collision : ∃ s1 s2 : String, s1 ≠ s2 ∧
    computedHash [("a", JsonValue.str s1)] = computedHash [("a", JsonValue.str s2)] := by
  have hcard : Fintype.card (Fin 64 → ↥hexFinset) < Fintype.card (Fin 257 → Bool) := by
    rw [Fintype.card_fun, Fintype.card_fun]
    simp only [Fintype.card_coe, Fintype.card_fin, Fintype.card_bool]
    rw [show hexFinset.card = 16 from by decide]
    decide
  obtain ⟨b1, b2, hne, he⟩ := Fintype.exists_ne_map_eq_of_card_lt digestChars hcard
  refine ⟨bitString b1, bitString b2, fun hs => hne (bitString_inj hs), ?_⟩
  have hl1 : (computedHash [("a", JsonValue.str (bitString b1))]).data.length = 64 :=
    sha256hex_length _
  have hl2 : (computedHash [("a", JsonValue.str (bitString b2))]).data.length = 64 :=
    sha256hex_length _
  refine string_eq_of_data_eq (List.ext_get (hl1.trans hl2.symm) fun i h1 h2 => ?_)
  have hi := congrFun he ⟨i, by omega⟩
  exact Subtype.ext_iff.mp hi

/-- The documented example receipt completed with its correct digest: the
SHA-256 of its canonical form with the digest field removed, pinned as a
constant and proved correct in the witness below. -/
def tamperBase : List (String × JsonValue) :=
  [("amount", .num 10), ("merchant", .str "ABC123"),
   ("sha256_hash",
    .str "a13162003cd44a14a418eafd04d7acd4e7d048ec070716d2dc91d6606c121a9b")]

